import Mathlib

set_option maxRecDepth 10000

/-!
Verification of the chunking engine (AstMarkdownSplitter and its managers and
strategies) against its natural-language specification.  Python strings are
modelled as lists of characters, Python exceptions as an `Except` monad, and
the pluggable tokenizer as an abstract function.  Each definition below is a
direct shallow embedding of the corresponding Python function; deviations
(e.g. rational arithmetic in place of IEEE floats for the two ratio tests)
are noted where they occur.
-/

/-- Python strings, modelled as lists of characters (Python `len`, slicing and
iteration are all per code point, matching `List Char`). -/
abbrev PyStr := List Char

/-- The whitespace predicate used to model Python `str.strip()` / `str.split()`
(the common ASCII whitespace characters; Python also strips `\x0b`/`\x0c`,
which never occur in the inputs considered here). -/
def isWS (c : Char) : Bool :=
  c = ' ' ∨ c = '\t' ∨ c = '\n' ∨ c = '\r' ∨ c = '\x0b' ∨ c = '\x0c'

/-- Python `str.strip()`: drop whitespace from both ends. -/
def pyStrip (s : PyStr) : PyStr :=
  ((s.dropWhile isWS).reverse.dropWhile isWS).reverse

/-- Worker for `pySplit`: scan left to right, cutting at each leftmost
non-overlapping occurrence of the (non-empty) separator `c0 :: sepT`. -/
def splitGo (c0 : Char) (sepT : PyStr) : PyStr → PyStr → List PyStr
  | [], acc => [acc.reverse]
  | c :: rest, acc =>
    if (c0 :: sepT).isPrefixOf (c :: rest) then
      acc.reverse :: splitGo c0 sepT (List.drop sepT.length rest) []
    else
      splitGo c0 sepT rest (c :: acc)
termination_by s _ => s.length
decreasing_by
  · simp only [List.length_drop, List.length_cons]
    omega
  · simp only [List.length_cons]
    omega

/-- Python `text.split(sep)` for a non-empty separator (for `sep = []` Python
raises; the code never calls it that way, we return `[s]`). -/
def pySplit (sep s : PyStr) : List PyStr :=
  match sep with
  | [] => [s]
  | c0 :: sepT => splitGo c0 sepT s []

/-- Python `sub in s` (substring containment), expressed through `pySplit`:
a split on `sub` produces at least two parts exactly when `sub` occurs. -/
def pyContains (s sub : PyStr) : Bool :=
  2 ≤ (pySplit sub s).length

/-- Python errors relevant to the engine, collapsed to their type. -/
inductive PyErr where
  | typeError
  | valueError
  | tokenizationError
  | chunkingError
  | documentParsingError
  | invalidConfiguration
  | renderError
  deriving DecidableEq, Repr

/-- A Python value passed to the public API: either a string or any
non-string value (all non-strings behave identically under `validate_input`,
so they are collapsed to one constructor). -/
inductive PyValue where
  | str (s : PyStr)
  | nonStr
  deriving DecidableEq

/-- `utils.validate_input` with the default `allow_empty=False` and no
metadata: `TypeError` for non-strings, `ValueError` when `text.strip()` is
empty, otherwise the text unchanged. -/
def validateInput (v : PyValue) : Except PyErr PyStr :=
  match v with
  | .nonStr => .error .typeError
  | .str s => if pyStrip s = [] then .error .valueError else .ok s

/-- `AstMarkdownSplitter.split_text`: validate the input first (those errors
propagate unwrapped), then run the internal split, wrapping any internal
failure into a `ChunkingError`.  The internal `_split_text` pipeline is
abstracted as `core` since the claim concerns only the validation layer. -/
def splitTextTop (core : PyStr → Except PyErr (List PyStr)) (v : PyValue) :
    Except PyErr (List PyStr) :=
  match validateInput v with
  | .error e => .error e
  | .ok t =>
    match core t with
    | .ok cs => .ok cs
    | .error _ => .error .chunkingError

/-- `AstMarkdownSplitter.__init__` followed by the pydantic field validation
performed by `super().__init__` (`chunk_size` must be `> 0`, `chunk_overlap`
must be `>= 0`).  The explicit check raises `InvalidConfigurationError` only
when `chunk_overlap > chunk_size`. -/
def mkSplitter (chunkSize chunkOverlap : Int) : Except PyErr (Int × Int) :=
  if chunkSize < chunkOverlap then .error .invalidConfiguration
  else if chunkSize ≤ 0 then .error .valueError
  else if chunkOverlap < 0 then .error .valueError
  else .ok (chunkSize, chunkOverlap)

/-- `CacheManager.get_token_count` with the memoization elided (it caches a
pure function of the string, so it is semantically transparent): call the
tokenizer, and on any exception fall back to `max(1, len(content) // 3)`.
The tokenizer argument returns the length of the produced token sequence, or
an error when it raises. -/
def getTokenCountE (tok : PyStr → Except PyErr Nat) (content : PyStr) :
    Except PyErr Nat :=
  match tok content with
  | .ok n => .ok n
  | .error _ => .ok (Nat.max 1 (content.length / 3))

/-- The metadata-sizing stage of `split_text_metadata_aware`: the
`try`/`except` around `get_token_count(metadata)` turns any escaping
exception into a `TokenizationError`; on success `default_metadata_format_len
= 2` is added. -/
def metadataStage (tok : PyStr → Except PyErr Nat) (md : PyStr) :
    Except PyErr Nat :=
  match getTokenCountE tok md with
  | .ok n => .ok (n + 2)
  | .error _ => .error .tokenizationError

/-- A markdown table as the table strategy sees it: a header row and data
rows, each row a list of cells, each cell carrying the raw text extracted
from its span tokens (`_get_raw_text`). -/
structure PyTable where
  header : List PyStr
  rows : List (List PyStr)
  deriving DecidableEq, Repr

/-- The block tree variants relevant to the claims (mistletoe block tokens):
headings carry a level, paragraphs their source text, tables their rows;
remaining kinds are collapsed into `other`. -/
inductive Block where
  | paragraph (text : PyStr)
  | heading (level : Nat) (text : PyStr)
  | table (t : PyTable)
  | other
  deriving DecidableEq, Repr

/-- Whether a block is a table block. -/
def Block.isTable : Block → Bool
  | .table _ => true
  | _ => false

/-- The header-tracking dictionary of `DocumentSplitState`, represented as an
association list from heading level to `(heading block, cached size)` kept
sorted by strictly increasing level — `get_header_content` iterates
`sorted(self.headers.keys())`, so a key-sorted list is a faithful data
refinement of the Python dict. -/
abbrev Headers := List (Nat × Block × Nat)

/-- `DocumentSplitState.update_headers`: store the heading at its level and
delete every entry at a strictly deeper level.  On the sorted-list
representation the surviving entries are exactly those with level `< level`,
followed by the new entry. -/
def updateHeaders (h : Headers) (level : Nat) (b : Block) (size : Nat) :
    Headers :=
  h.filter (fun p => p.1 < level) ++ [(level, b, size)]

/-- Python `self.headers.get(l)`: the entry tracked at level `l`. -/
def lookupLevel (h : Headers) (l : Nat) : Option (Block × Nat) :=
  (h.find? (fun p => p.1 = l)).map (fun p => p.2)

/-- `header_tokens` in `get_header_content`: use the cached size when
positive, else fall back to `len(header_text) // 3`. -/
def hdrTokens (cached : Nat) (t : PyStr) : Nat :=
  if cached > 0 then cached else t.length / 3

/-- Worker for `get_header_content`: walk the entries in (sorted) order with
the accumulated content and size; a failing render skips the entry
(`continue`), a fitting entry is appended with `+2` separation overhead, and
the first successfully rendered entry that does not fit stops the walk
(`break`). -/
def ghcAux (render : Block → Option PyStr) (maxSize : Int) :
    Headers → List PyStr → Nat → List PyStr × Nat
  | [], acc, accSize => (acc, accSize)
  | (_, b, cached) :: rest, acc, accSize =>
    match render b with
    | none => ghcAux render maxSize rest acc accSize
    | some t =>
      if ((accSize : Int) + hdrTokens cached t + 2) ≤ maxSize then
        ghcAux render maxSize rest (acc ++ [t]) (accSize + hdrTokens cached t + 2)
      else (acc, accSize)

/-- `DocumentSplitState.get_header_content`: the carry-forward header texts
and their total accounted size, for a caller-given size budget. -/
def getHeaderContent (render : Block → Option PyStr) (maxSize : Int)
    (h : Headers) : List PyStr × Nat :=
  ghcAux render maxSize h [] 0

/-- Whether the `get_header_content` walk hits its `break` (a successfully
rendered entry that does not fit), starting from accumulated size `accSize`. -/
def ghcStops (render : Block → Option PyStr) (maxSize : Int) :
    Headers → Nat → Bool
  | [], _ => false
  | (_, b, cached) :: rest, accSize =>
    match render b with
    | none => ghcStops render maxSize rest accSize
    | some t =>
      if ((accSize : Int) + hdrTokens cached t + 2) ≤ maxSize then
        ghcStops render maxSize rest (accSize + hdrTokens cached t + 2)
      else true

/-- Splitting a string at each whitespace character (the groups between
whitespace characters, boundaries included as empty groups). -/
def wordGroups : PyStr → List PyStr
  | [] => [[]]
  | c :: rest =>
    let gs := wordGroups rest
    if isWS c then [] :: gs
    else
      match gs with
      | [] => [[c]]
      | g :: gt => (c :: g) :: gt

/-- Python `text.split()` (no argument): split on whitespace runs and drop
the empty pieces. -/
def pyWords (s : PyStr) : List PyStr :=
  (wordGroups s).filter (fun g => g ≠ [])

/-- The shrink loop of `_split_by_chars_with_tokens`: while the window of
`e` characters is over budget and wider than one character, reduce it by
`max(1, e // 10)`.  The Python loop works with absolute positions
`start`/`end` into the full text but only ever uses `end - start` and
`text[start:end]`, so the window is expressed relative to the remaining
suffix `r`. -/
def shrinkWindow (cnt : PyStr → Nat) (r : PyStr) (maxSize : Nat) (e : Nat) :
    Nat :=
  if _h : cnt (r.take e) > maxSize ∧ e > 1 then
    shrinkWindow cnt r maxSize (e - Nat.max 1 (e / 10))
  else e
termination_by e
decreasing_by
  have h1 : 1 ≤ Nat.max 1 (e / 10) := Nat.le_max_left _ _
  omega

/-- The grow loop of `_split_by_chars_with_tokens`: while the window is
within budget and short of the end, try extending by `max(1, e // 20)`
characters (capped at the end); keep the extension only if it still fits. -/
def growWindow (cnt : PyStr → Nat) (r : PyStr) (maxSize : Nat) (e : Nat) :
    Nat :=
  if _h : cnt (r.take e) ≤ maxSize ∧ e < r.length then
    if cnt (r.take (Nat.min (e + Nat.max 1 (e / 20)) r.length)) ≤ maxSize then
      growWindow cnt r maxSize (Nat.min (e + Nat.max 1 (e / 20)) r.length)
    else e
  else e
termination_by r.length - e
decreasing_by
  have h1 : 1 ≤ Nat.max 1 (e / 20) := Nat.le_max_left _ _
  have h2 : e + 1 ≤ Nat.min (e + Nat.max 1 (e / 20)) r.length :=
    Nat.le_min.mpr ⟨by omega, by omega⟩
  have h3 : Nat.min (e + Nat.max 1 (e / 20)) r.length ≤ r.length :=
    Nat.min_le_right _ _
  omega

/-- One outer iteration of `_split_by_chars_with_tokens`: start from the
conservative estimate of `3` characters per token (capped at the end),
shrink while over budget, grow while under, then force progress
(`if end <= start: end = start + 1`). -/
def windowSize (cnt : PyStr → Nat) (r : PyStr) (maxSize : Nat) : Nat :=
  let e2 := growWindow cnt r maxSize
    (shrinkWindow cnt r maxSize (Nat.min (maxSize * 3) r.length))
  if e2 = 0 then 1 else e2

/-- `_split_by_chars_with_tokens`: cut the text into consecutive adaptive
windows until it is exhausted. -/
def splitByChars (cnt : PyStr → Nat) (r : PyStr) (maxSize : Nat) :
    List PyStr :=
  if hr : r = [] then []
  else
    r.take (windowSize cnt r maxSize) ::
      splitByChars cnt (r.drop (windowSize cnt r maxSize)) maxSize
termination_by r.length
decreasing_by
  simp only [List.length_drop]
  have h1 : 1 ≤ windowSize cnt r maxSize := by
    simp only [windowSize]
    split <;> omega
  have h2 : 0 < r.length := List.length_pos.mpr hr
  omega

/-- One step of the word loop in `_split_by_tokens`: try appending the word
(with a separating space when the current chunk is non-empty); on overflow
emit the current chunk and either char-split the word (when the word alone
is over budget) or start a new chunk with it. -/
def sbtStep (cnt : PyStr → Nat) (maxSize : Nat) (acc : List PyStr × PyStr)
    (w : PyStr) : List PyStr × PyStr :=
  let test := acc.2 ++ (if acc.2 ≠ [] then [' '] else []) ++ w
  if cnt test ≤ maxSize then (acc.1, test)
  else
    let chunks1 := if acc.2 ≠ [] then acc.1 ++ [acc.2] else acc.1
    if cnt w > maxSize then (chunks1 ++ splitByChars cnt w maxSize, [])
    else (chunks1, w)

/-- `_split_by_tokens`: split the text into whitespace-delimited words and
regroup them under the budget, char-splitting any single word that exceeds
it; the trailing chunk is emitted if non-empty. -/
def splitByTokens (cnt : PyStr → Nat) (text : PyStr) (maxSize : Nat) :
    List PyStr :=
  if pyWords text = [] then []
  else
    let st := (pyWords text).foldl (sbtStep cnt maxSize) ([], [])
    if st.2 ≠ [] then st.1 ++ [st.2] else st.1

/-- The separator preference order of `_force_split_large_text`. -/
def forceSepList : List PyStr :=
  [['.', ' '], ['。'], ['！'], ['!'], ['？'], ['?'], ['\n', '\n'], ['\n']]

/-- One step of the sentence loop in `_force_split_large_text`: skip blank
sentences; re-attach the separator (`'\n'` when the text contains a newline,
else a space); a sentence over budget flushes the current chunk and is
word/char-split (note: the raw sentence, not the stripped one); otherwise
greedily extend the current chunk, flushing it (stripped) on overflow. -/
def fsltStep (cnt : PyStr → Nat) (maxSize : Nat) (withSep : PyStr)
    (acc : List PyStr × PyStr) (s : PyStr) : List PyStr × PyStr :=
  if pyStrip s = [] then acc
  else
    let sws := pyStrip s ++ withSep
    if cnt sws > maxSize then
      ((if acc.2 ≠ [] then acc.1 ++ [pyStrip acc.2] else acc.1) ++
        splitByTokens cnt s maxSize, [])
    else if acc.2 ≠ [] then
      if cnt (acc.2 ++ sws) > maxSize then (acc.1 ++ [pyStrip acc.2], sws)
      else (acc.1, acc.2 ++ sws)
    else (acc.1, sws)

/-- `_force_split_large_text`: split on the first listed separator that
occurs in the text (falling back to a line split), then regroup the
sentences under the budget; the trailing chunk is emitted stripped when its
stripped form is non-empty. -/
def forceSplitLargeText (cnt : PyStr → Nat) (text : PyStr) (maxSize : Nat) :
    List PyStr :=
  let sents0 := match forceSepList.find? (fun sep => pyContains text sep) with
    | some sep => pySplit sep text
    | none => []
  let sents := if sents0 = [] then pySplit ['\n'] text else sents0
  let st := sents.foldl
    (fsltStep cnt maxSize (if pyContains text ['\n'] then ['\n'] else [' ']))
    ([], [])
  if pyStrip st.2 ≠ [] then st.1 ++ [pyStrip st.2] else st.1

/-- The final validation pass of `_split_document` (lines 397-407): re-measure
every emitted chunk and replace any chunk over budget by its force-split
pieces, in place. -/
def validateChunks (cnt : PyStr → Nat) (chunks : List PyStr)
    (maxSize : Nat) : List PyStr :=
  (chunks.map (fun c =>
    if cnt c > maxSize then forceSplitLargeText cnt c maxSize else [c])).flatten

/-- The content-type tags of `_detect_special_content_type`. -/
inductive ContentType where
  | code
  | tableLike
  | paramConfig
  | normal
  deriving DecidableEq, Repr

/-- The sentence-separator characters: the single-character entries of
`CONFIG.sentence_separators`, in order.  The multi-character entries
(`"……"`, `"\n\n"`) can never equal a single character, so Python's
`char in CONFIG.sentence_separators` reduces to membership in this list. -/
def sepChars : List Char :=
  ['。', '？', '！', '；', '…', '》', '】', '）', '?', '!', ';', '…', ')',
    ']', '\x7d', '.']

/-- `_split_text_into_sentences` grouping: append each character to the
current sentence, starting a new one after each separator character. -/
def sentenceGroups : PyStr → List PyStr
  | [] => [[]]
  | c :: rest =>
    let gs := sentenceGroups rest
    if c ∈ sepChars then [c] :: gs
    else
      match gs with
      | [] => [[c]]
      | g :: gt => (c :: g) :: gt

/-- `_split_text_into_sentences`: the non-empty sentence groups. -/
def splitTextIntoSentences (text : PyStr) : List PyStr :=
  (sentenceGroups text).filter (fun g => g ≠ [])

/-- The parameter keywords of `_detect_special_content_type`. -/
def paramKeywords : List PyStr :=
  [['参', '数'], ['P', 'a', 'r', 'a', 'm', 'e', 't', 'e', 'r'],
    ['C', 'o', 'n', 'f', 'i', 'g'], ['S', 'w', 'i', 't', 'c', 'h'],
    ['O', 'f', 'f', 's', 'e', 't'],
    ['T', 'h', 'r', 'e', 's', 'h', 'o', 'l', 'd'], ['门', '限'],
    ['开', '关'], ['配', '置']]

/-- `_detect_special_content_type`.  The float comparisons are modelled
exactly over the integers: `n > len * 0.7` (with the IEEE double `0.7`
slightly below `7/10`) holds iff `10 * n ≥ 7 * len` for the list lengths in
range, and `n > len * 0.5` iff `2 * n > len` (halves are exact). -/
def detectSpecialContentType (text : PyStr) (lines : List PyStr) :
    ContentType :=
  if pyContains text ['[', 'c', 'o', 'd', 'e', ']'] ∧
      pyContains text ['[', '/', 'c', 'o', 'd', 'e', ']'] then
    .code
  else if 10 * (lines.filter
        (fun l => pyContains l ['|'] ∧ 10 < (pyStrip l).length)).length ≥
      7 * lines.length ∧ 10 < lines.length then
    .tableLike
  else if 2 * (lines.filter
        (fun l => paramKeywords.any (fun k => pyContains l k))).length >
      lines.length ∧ 15 < lines.length then
    .paramConfig
  else .normal

/-- The loop of `_find_sentence_split_point`, carried over the token list:
`split_idx` advances past each sentence until `total_size + token_count`
exceeds the budget.  Note the source never adds to `total_size`, so the
walk in fact stops at the first sentence whose own count exceeds the
budget; the accumulator is kept to mirror the source. -/
def fsspGo (chunkSize : Nat) : List Nat → Nat → Nat → Nat → Nat
  | [], _, splitIdx, _ => splitIdx
  | tc :: rest, i, splitIdx, totalSize =>
    if totalSize + tc > chunkSize then splitIdx
    else fsspGo chunkSize rest (i + 1) (i + 1) totalSize

/-- `_find_sentence_split_point` (the returned index; the token list it also
returns is `sentences.map cnt`). -/
def findSentenceSplitPoint (cnt : PyStr → Nat) (chunkSize : Nat)
    (sentences : List PyStr) : Nat :=
  fsspGo chunkSize (sentences.map cnt) 0 0 0

/-- `_create_sentence_pair`: at `split_idx = 0`, a first sentence longer (in
characters) than `1.5 × chunk_size` yields the empty list (the signal for
forced splitting); otherwise the pair splits after the first sentence, or at
the found index.  `len > size * 1.5` is modelled exactly as
`2 * len > 3 * size`. -/
def createSentencePair (chunkSize : Nat) (sentences : List PyStr)
    (splitIdx : Nat) (text : PyStr) : List PyStr :=
  if splitIdx = 0 then
    let first := match sentences with | [] => text | s :: _ => s
    if 2 * first.length > 3 * chunkSize then []
    else
      [sentences.headD [],
        if sentences.length > 1 then (sentences.drop 1).flatten else []]
  else
    [(sentences.take splitIdx).flatten, (sentences.drop splitIdx).flatten]

/-- Python `text[i:i+step]` slices for `i in range(0, len(text), step)`. -/
def chunksEvery (step : Nat) (s : PyStr) : List PyStr :=
  if hs : s = [] then []
  else if hstep : step = 0 then [s]
  else s.take step :: chunksEvery step (s.drop step)
termination_by s.length
decreasing_by
  simp only [List.length_drop]
  have h2 : 0 < s.length := List.length_pos.mpr hs
  omega

/-- One line step of `_force_split_by_lines`: when the line would overflow a
non-empty current group, finalize the group (via the parser, skipping a
failed parse) and restart with the line; otherwise extend the group.  The
state is (result blocks, current lines, current size). -/
def fsblStep (cnt : PyStr → Nat) (mkDoc : PyStr → Option Block)
    (chunkSize : Nat) (st : List Block × List PyStr × Nat) (line : PyStr) :
    List Block × List PyStr × Nat :=
  let lt := cnt (line ++ ['\n'])
  if st.2.2 + lt > chunkSize ∧ st.2.1 ≠ [] then
    (match mkDoc (List.intercalate ['\n'] st.2.1) with
      | some b => st.1 ++ [b]
      | none => st.1,
      [line], lt)
  else (st.1, st.2.1 ++ [line], st.2.2 + lt)

/-- One chunk step of `_process_oversized_chunks`: a failed render keeps the
chunk as is; a rendered chunk over budget is sliced at
`max(50, 2 * chunk_size)` characters, each stripped slice still over budget
is re-sliced at `max(20, chunk_size)` characters, and the stripped pieces
are re-parsed into blocks (skipping empty or unparseable ones). -/
def pocStep (cnt : PyStr → Nat) (mkDoc : PyStr → Option Block)
    (render : Block → Except PyErr PyStr) (chunkSize : Nat)
    (final : List Block) (chunk : Block) : List Block :=
  match render chunk with
  | .error _ => final ++ [chunk]
  | .ok chunkText =>
    if cnt chunkText > chunkSize then
      (chunksEvery (Nat.max 50 (chunkSize * 2)) chunkText).foldl
        (fun acc part0 =>
          let part := pyStrip part0
          if part ≠ [] then
            if cnt part > chunkSize then
              (chunksEvery (Nat.max 20 chunkSize) part).foldl
                (fun acc2 t0 =>
                  let tiny := pyStrip t0
                  if tiny ≠ [] then
                    match mkDoc tiny with
                    | some b => acc2 ++ [b]
                    | none => acc2
                  else acc2) acc
            else
              match mkDoc part with
              | some b => acc ++ [b]
              | none => acc
          else acc) final
    else final ++ [chunk]

/-- `_process_oversized_chunks`: re-check each produced block, character
splitting the oversized ones; fall back to the original block when nothing
survives. -/
def processOversizedChunks (cnt : PyStr → Nat) (mkDoc : PyStr → Option Block)
    (render : Block → Except PyErr PyStr) (chunkSize : Nat)
    (blocks : List Block) (orig : Block) : List Block :=
  let final := blocks.foldl (pocStep cnt mkDoc render chunkSize) []
  if final = [] then [orig] else final

/-- `_force_split_by_lines`: group the lines under the budget, parse each
group back into a block, then post-process oversized groups. -/
def forceSplitByLines (cnt : PyStr → Nat) (mkDoc : PyStr → Option Block)
    (render : Block → Except PyErr PyStr) (chunkSize : Nat) (text : PyStr)
    (orig : Block) : List Block :=
  let st := (pySplit ['\n'] text).foldl (fsblStep cnt mkDoc chunkSize)
    ([], [], 0)
  let blocks := if st.2.1 ≠ [] then
      (match mkDoc (List.intercalate ['\n'] st.2.1) with
        | some b => st.1 ++ [b]
        | none => st.1)
    else st.1
  processOversizedChunks cnt mkDoc render chunkSize blocks orig

/-- `_split_normal_paragraph`: sentence-split the text; an empty sentence
list yields the empty result; an empty pair (the oversized-first-sentence
signal) falls back to the strategy's own line-based forced splitting;
otherwise the pair's non-blank parts are re-parsed, falling back to the
original block when nothing parses. -/
def splitNormalParagraph (cnt : PyStr → Nat) (mkDoc : PyStr → Option Block)
    (render : Block → Except PyErr PyStr) (chunkSize : Nat) (text : PyStr)
    (orig : Block) : List Block :=
  if splitTextIntoSentences text = [] then []
  else
    if createSentencePair chunkSize (splitTextIntoSentences text)
        (findSentenceSplitPoint cnt chunkSize (splitTextIntoSentences text))
        text = [] then
      forceSplitByLines cnt mkDoc render chunkSize text orig
    else
      if (createSentencePair chunkSize (splitTextIntoSentences text)
          (findSentenceSplitPoint cnt chunkSize
            (splitTextIntoSentences text)) text).foldl
          (fun acc part =>
            if pyStrip part ≠ [] then
              match mkDoc part with
              | some b => acc ++ [b]
              | none => acc
            else acc) [] = [] then [orig]
      else
        (createSentencePair chunkSize (splitTextIntoSentences text)
          (findSentenceSplitPoint cnt chunkSize
            (splitTextIntoSentences text)) text).foldl
          (fun acc part =>
            if pyStrip part ≠ [] then
              match mkDoc part with
              | some b => acc ++ [b]
              | none => acc
            else acc) []

/-- The pure body of `ParagraphSplitStrategy.split_block` after the initial
render: dispatch on the detected content type. -/
def paragraphSplitCore (cnt : PyStr → Nat) (mkDoc : PyStr → Option Block)
    (render : Block → Except PyErr PyStr) (chunkSize : Nat) (text : PyStr)
    (orig : Block) : List Block :=
  match detectSpecialContentType text (pySplit ['\n'] text) with
  | .normal => splitNormalParagraph cnt mkDoc render chunkSize text orig
  | _ => forceSplitByLines cnt mkDoc render chunkSize text orig

/-- `ParagraphSplitStrategy.split_block`: the initial
`text = self.render_block(block)` is outside any `try`, so a renderer
exception propagates out of the strategy. -/
def paragraphSplitBlockE (cnt : PyStr → Nat) (mkDoc : PyStr → Option Block)
    (render : Block → Except PyErr PyStr) (chunkSize : Nat) (block : Block) :
    Except PyErr (List Block) :=
  match render block with
  | .error e => .error e
  | .ok text => .ok (paragraphSplitCore cnt mkDoc render chunkSize text block)

/-- A decomposition strategy as `_split_block` sees it: a type test and a
fallible split. -/
structure Strategy where
  canHandle : Block → Bool
  splitBlock : Block → Except PyErr (List Block)

/-- `AstMarkdownSplitter._split_block`: try each strategy that can handle
the block, catching its exception and moving on (`continue`); when none
succeeds, return the block unchanged. -/
def splitBlockOrch : List Strategy → Block → Except PyErr (List Block)
  | [], b => .ok [b]
  | s :: rest, b =>
    if s.canHandle b then
      match s.splitBlock b with
      | .ok r => .ok r
      | .error _ => splitBlockOrch rest b
    else splitBlockOrch rest b

/-- `TableSplitStrategy._gen_table_header`: synthetic column labels
`C_A`, `C_B`, …. -/
def genTableHeaderCell (i : Nat) : PyStr :=
  if i < 26 then ['C', '_', Char.ofNat (65 + i)]
  else ['C', '_', Char.ofNat (65 + i / 26 - 1), Char.ofNat (65 + i % 26)]

/-- The generated synthetic header row. -/
def genTableHeader (size : Nat) : List PyStr :=
  (List.range size).map genTableHeaderCell

/-- `TableSplitStrategy._count_token_table_row`: border overhead `2`, plus
`cell cost + 2` per cell, minus the last separator (clamped at zero). -/
def countTokenTableRow (cnt : PyStr → Nat) (cells : List PyStr) : Nat :=
  Nat.max 0 (cells.foldl (fun acc cell => acc + cnt cell + 2) 2 - 1)

/-- The cleanup in `_convert_table_to_paragraphs`: replace each `|` by a
space, collapse whitespace runs to single spaces and strip — equivalently,
join the whitespace-delimited words with single spaces. -/
def cleanRowText (s : PyStr) : PyStr :=
  List.intercalate [' ']
    (pyWords (s.map (fun c => if c = '|' then ' ' else c)))

/-- `_convert_table_to_paragraphs`: each row whose cleaned render is
non-empty is re-parsed into a block; when nothing survives the original
table is returned. -/
def convertTableToParagraphs (renderRow : List PyStr → PyStr)
    (mkDoc : PyStr → Option Block) (t : PyTable) : List Block :=
  if (t.rows.map (fun row =>
      if cleanRowText (renderRow row) ≠ [] then
        match mkDoc (cleanRowText (renderRow row)) with
        | some b => [b]
        | none => []
      else [])).flatten = [] then [Block.table t]
  else (t.rows.map (fun row =>
      if cleanRowText (renderRow row) ≠ [] then
        match mkDoc (cleanRowText (renderRow row)) with
        | some b => [b]
        | none => []
      else [])).flatten

/-- One row step of `_split_table_by_rows`: state is (tables, current rows,
current size); a row that would overflow a non-empty group closes the group
as a table carrying the header. -/
def stbrStep (cnt : PyStr → Nat) (chunkSize : Nat) (header : List PyStr)
    (headerSize : Nat) (st : List Block × List (List PyStr) × Nat)
    (row : List PyStr) : List Block × List (List PyStr) × Nat :=
  let rowSize := countTokenTableRow cnt row
  if st.2.2 + rowSize > chunkSize ∧ st.2.1 ≠ [] then
    (st.1 ++ [Block.table ⟨header, st.2.1⟩], [row], headerSize + rowSize)
  else (st.1, st.2.1 ++ [row], st.2.2 + rowSize)

/-- `_split_table_by_rows`: greedily group consecutive rows under the
budget, each group carrying the header (`_create_table_with_rows` is
modelled as always succeeding, as it only re-parses a constant skeleton). -/
def splitTableByRows (cnt : PyStr → Nat) (chunkSize : Nat) (t : PyTable) :
    List Block :=
  if t.rows = [] then [Block.table t]
  else
    let headerSize := countTokenTableRow cnt t.header
    let st := t.rows.foldl (stbrStep cnt chunkSize t.header headerSize)
      ([], [], headerSize)
    let result := if st.2.1 ≠ [] then
        st.1 ++ [Block.table ⟨t.header, st.2.1⟩]
      else st.1
    if result = [] then [Block.table t] else result

/-- The header-replacement test: `header_size > mean_row_size * 2.0`,
modelled exactly over the rationals as
`header_size * row_count > 2 * Σ row_sizes` (the only deviation from IEEE
doubles is at the rounding of `sum / len`, far from the cases below). -/
def tableShouldReplace (cnt : PyStr → Nat) (t : PyTable) : Bool :=
  countTokenTableRow cnt t.header * (t.rows.map (countTokenTableRow cnt)).length >
    2 * (t.rows.map (countTokenTableRow cnt)).sum

/-- The table after the optional header replacement: the synthetic header
takes over and the original header is demoted to the first row. -/
def tableAfterReplace (cnt : PyStr → Nat) (t : PyTable) : PyTable :=
  if tableShouldReplace cnt t then
    { header := genTableHeader t.header.length, rows := t.header :: t.rows }
  else t

/-- The row-size list used by the conversion test: the original header's
size is prepended when the header was replaced
(`table_row_sizes.insert(0, table_header_size)`). -/
def tableRowSizesAfter (cnt : PyStr → Nat) (t : PyTable) : List Nat :=
  if tableShouldReplace cnt t then
    countTokenTableRow cnt t.header :: t.rows.map (countTokenTableRow cnt)
  else t.rows.map (countTokenTableRow cnt)

/-- The conversion test of `TableSplitStrategy.split_block`:
`max_row ≥ 0.5 × chunk_size` (exact as `2 * max_row ≥ chunk_size`), or
`total > 2 × chunk_size` — where `total` adds the original header size on
top of the row-size list, double-counting it after a replacement, as the
source does — or more than 50 rows. -/
def tableShouldConvert (cnt : PyStr → Nat) (chunkSize : Nat) (t : PyTable) :
    Bool :=
  2 * (tableRowSizesAfter cnt t).foldl Nat.max 0 ≥ chunkSize ∨
    (tableRowSizesAfter cnt t).sum + countTokenTableRow cnt t.header >
      2 * chunkSize ∨
    (tableRowSizesAfter cnt t).length > 50

/-- `TableSplitStrategy.split_block`: with no data rows return the table
unchanged; otherwise optionally replace the header, then either convert to
paragraphs or split by rows.  The outer `try`/`except` (returning
`[block]`) is unreachable here because every embedded component is total. -/
def tableSplitBlock (cnt : PyStr → Nat) (renderRow : List PyStr → PyStr)
    (mkDoc : PyStr → Option Block) (chunkSize : Nat) (t : PyTable) :
    List Block :=
  if t.rows.map (countTokenTableRow cnt) = [] then [Block.table t]
  else if tableShouldConvert cnt chunkSize t then
    convertTableToParagraphs renderRow mkDoc (tableAfterReplace cnt t)
  else splitTableByRows cnt chunkSize (tableAfterReplace cnt t)

/-- The character-count token measure: the default tokenizer is
`lambda x: x`, whose token count for a string is its length. -/
def charCount : PyStr → Nat := List.length

/-- A concrete stand-in for `mistletoe.Document(text).children[0]`: plain
non-blank text parses to a paragraph, blank text to nothing. -/
def mkDocSimple (t : PyStr) : Option Block :=
  if pyStrip t = [] then none else some (Block.paragraph t)

/-- A concrete renderer for the blocks produced in the examples. -/
def renderSimple : Block → Except PyErr PyStr
  | Block.paragraph t => .ok t
  | Block.heading _ t => .ok t
  | Block.table _ => .ok []
  | Block.other => .ok []

/-- A concrete row renderer in the markdown style `| c1 | c2 |`. -/
def renderRowSimple (cells : List PyStr) : PyStr :=
  '|' :: (cells.map (fun c => ' ' :: (c ++ [' ', '|']))).flatten

/-- C3 counterexample: constructing with `chunk_overlap = chunk_size = 5`
succeeds (the code only rejects `chunk_overlap > chunk_size`), so the claim
that `chunk_overlap ≥ chunk_size` raises — equivalently that every
constructed splitter satisfies the strict inequality — is false. -/
theorem mkSplitter_equal_overlap_accepted :
    mkSplitter 5 5 = Except.ok (5, 5) ∧ ¬ ((5 : Int) < 5) := by
  constructor
  · rfl
  · omega

/-- C3 (amended): construction succeeds exactly when `chunk_overlap ≤
chunk_size`, `chunk_size > 0` and `chunk_overlap ≥ 0`; in particular every
successfully constructed splitter satisfies the non-strict inequality
`chunk_overlap ≤ chunk_size` (equality is accepted). -/
theorem mkSplitter_overlap_le :
    ∀ cs co : Int,
      ((mkSplitter cs co).isOk = true ↔ (co ≤ cs ∧ 0 < cs ∧ 0 ≤ co)) ∧
      (∀ p, mkSplitter cs co = Except.ok p → p.2 ≤ p.1) := by
  intro cs co
  constructor
  · unfold mkSplitter
    split
    · simp only [Except.isOk]
      constructor
      · intro h; cases h
      · intro h; omega
    · split
      · simp only [Except.isOk]
        constructor
        · intro h; cases h
        · intro h; omega
      · split
        · simp only [Except.isOk]
          constructor
          · intro h; cases h
          · intro h; omega
        · simp only [Except.isOk]
          constructor
          · intro _; omega
          · intro _; rfl
  · intro p hp
    unfold mkSplitter at hp
    split at hp
    · cases hp
    · split at hp
      · cases hp
      · split at hp
        · cases hp
        · cases hp
          simp only
          omega

/-- C3 witness: instantiating the amended theorem at `chunk_size = 5`,
`chunk_overlap = 5` shows equal overlap is accepted and satisfies `≤`. -/
theorem mkSplitter_overlap_le_witness :
    (5 : Int) ≤ 5 ∧ ((5 : Int), (5 : Int)).2 ≤ ((5 : Int), (5 : Int)).1 :=
  ⟨le_refl 5, (mkSplitter_overlap_le 5 5).2 (5, 5) rfl⟩

/-- C4: the `TokenizationError` branch in `split_text_metadata_aware` is
unreachable for string metadata: `CacheManager.get_token_count` catches the
tokenizer's exception internally and falls back to `max(1, len // 3)`, so
the metadata-sizing stage always succeeds — here evaluated at a tokenizer
that raises on every input with metadata `"meta"`, yielding `1 + 2 = 3`
instead of the fatal error the claim (and the method's docstring) describe. -/
theorem metadataStage_never_tokenization_error :
    metadataStage (fun _ => Except.error PyErr.valueError)
        ['m', 'e', 't', 'a'] = Except.ok 3 ∧
    ∀ (tok : PyStr → Except PyErr Nat) (md : PyStr),
      ∃ n, metadataStage tok md = Except.ok n := by
  constructor
  · rfl
  · intro tok md
    unfold metadataStage getTokenCountE
    cases h : tok md <;> simp

/-- C10: at the public interface, `split_text` raises `TypeError` for every
non-string input and `ValueError` for every string whose stripped content is
empty; a successful (in particular non-empty) chunk list is produced only
for strings with non-whitespace content.  Validation errors propagate
unwrapped because `validate_input` runs before the `try` block. -/
theorem splitTextTop_validation :
    ∀ (core : PyStr → Except PyErr (List PyStr)) (v : PyValue),
      (v = PyValue.nonStr → splitTextTop core v = Except.error PyErr.typeError) ∧
      (∀ s, v = PyValue.str s → pyStrip s = [] →
        splitTextTop core v = Except.error PyErr.valueError) ∧
      (∀ cs, splitTextTop core v = Except.ok cs →
        ∃ s, v = PyValue.str s ∧ pyStrip s ≠ []) := by
  intro core v
  refine ⟨?_, ?_, ?_⟩
  · rintro rfl
    rfl
  · rintro s rfl hs
    simp [splitTextTop, validateInput, hs]
  · intro cs hcs
    cases v with
    | nonStr => cases hcs
    | str s =>
      refine ⟨s, rfl, ?_⟩
      intro hstrip
      simp [splitTextTop, validateInput, hstrip] at hcs

/-- C10 witness: a whitespace-only string is rejected with `ValueError` and a
non-string input with `TypeError`, at a concrete core. -/
theorem splitTextTop_validation_witness :
    splitTextTop (fun t => Except.ok [t]) (PyValue.str [' ']) =
      Except.error PyErr.valueError ∧
    splitTextTop (fun t => Except.ok [t]) PyValue.nonStr =
      Except.error PyErr.typeError :=
  ⟨(splitTextTop_validation (fun t => Except.ok [t]) (PyValue.str [' '])).2.1
      [' '] rfl (by decide),
   (splitTextTop_validation (fun t => Except.ok [t]) PyValue.nonStr).1 rfl⟩

/-- `find?` skips a prefix on which the predicate is everywhere false. -/
theorem find?_append_of_none {α : Type} (A B : List α) (p : α → Bool)
    (hA : A.find? p = none) : (A ++ B).find? p = B.find? p := by
  induction A with
  | nil => simp
  | cons a A ih =>
    cases hpa : p a with
    | true => simp [List.find?_cons, hpa] at hA
    | false =>
      simp only [List.find?_cons, hpa] at hA
      simp [List.find?_cons, hpa, ih hA]

/-- Entries filtered to levels `< L` never match a level `l ≥ L`. -/
theorem find?_filter_lt_none (h : Headers) (L l : Nat) (hLl : L ≤ l) :
    (h.filter (fun p => p.1 < L)).find? (fun p => p.1 = l) = none := by
  rw [List.find?_eq_none]
  intro x hx
  rw [List.mem_filter] at hx
  simp only [decide_eq_true_eq] at hx ⊢
  omega

/-- C5: after `update_headers` at level `L`, the mapping contains the new
entry at level `L`, contains no entry at any level `> L` (all entries have
level `≤ L`), preserves strictly-increasing level order, and in particular
inserting a level-2 heading after a level-3 one leaves only entries of level
`≤ 2` (the level-3 entry is gone), so a subsequent flush carries forward only
headers of level `≤ 2`. -/
theorem updateHeaders_spec (h : Headers) (L : Nat) (b : Block) (n : Nat) :
    lookupLevel (updateHeaders h L b n) L = some (b, n) ∧
    (∀ l, L < l → lookupLevel (updateHeaders h L b n) l = none) ∧
    (∀ p ∈ updateHeaders h L b n, p.1 ≤ L) ∧
    ((h.map (fun p => p.1)).Pairwise (· < ·) →
      ((updateHeaders h L b n).map (fun p => p.1)).Pairwise (· < ·)) ∧
    (∀ b3 n3 b2 n2, updateHeaders (updateHeaders h 3 b3 n3) 2 b2 n2 =
      h.filter (fun p => p.1 < 2) ++ [(2, b2, n2)]) := by
  refine ⟨?_, ?_, ?_, ?_, ?_⟩
  · unfold updateHeaders lookupLevel
    rw [find?_append_of_none _ _ _ (find?_filter_lt_none h L L le_rfl)]
    simp [List.find?_cons]
  · intro l hl
    unfold updateHeaders lookupLevel
    rw [find?_append_of_none _ _ _ (find?_filter_lt_none h L l (le_of_lt hl))]
    have : L ≠ l := Nat.ne_of_lt hl
    simp [List.find?_cons, this]
  · intro p hp
    unfold updateHeaders at hp
    rw [List.mem_append] at hp
    rcases hp with hp | hp
    · rw [List.mem_filter] at hp
      simp only [decide_eq_true_eq] at hp
      omega
    · simp only [List.mem_singleton] at hp
      subst hp
      exact le_rfl
  · intro hsorted
    unfold updateHeaders
    rw [List.map_append, List.pairwise_append]
    refine ⟨?_, ?_, ?_⟩
    · exact hsorted.sublist ((List.filter_sublist h).map (fun p => p.1))
    · simp
    · intro a ha bb hbb
      simp only [List.mem_map] at ha
      obtain ⟨q, hq, rfl⟩ := ha
      rw [List.mem_filter] at hq
      simp only [decide_eq_true_eq] at hq
      simp only [List.map_cons, List.map_nil, List.mem_singleton] at hbb
      omega
  · intro b3 n3 b2 n2
    unfold updateHeaders
    rw [List.filter_append]
    have h1 : ([((3 : Nat), b3, n3)].filter (fun p => p.1 < 2)) = [] := by
      simp [List.filter]
    have h2 : ∀ hh : Headers,
        (hh.filter (fun p => p.1 < 3)).filter (fun p => p.1 < 2) =
          hh.filter (fun p => p.1 < 2) := by
      intro hh
      induction hh with
      | nil => rfl
      | cons q qs ih =>
        by_cases hq : q.1 < 2
        · have hq3 : q.1 < 3 := by omega
          simp [List.filter_cons, hq, hq3, ih]
        · by_cases hq3 : q.1 < 3 <;> simp [List.filter_cons, hq, hq3, ih]
    rw [h1, h2]
    simp

/-- C5 witness: after inserting a level-2 heading over a tracked level-3
heading, the level-3 entry is gone. -/
theorem updateHeaders_spec_witness :
    lookupLevel (updateHeaders [(3, Block.other, 5)] 2 Block.other 4) 3 =
      none :=
  (updateHeaders_spec [(3, Block.other, 5)] 2 Block.other 4).2.1 3
    (by omega)

/-- The `get_header_content` walk: its output extends the accumulator by the
renders of a sub-selection of the remaining entries, and its accounted size
never exceeds the budget when the accumulated size does not already. -/
theorem ghcAux_spec (render : Block → Option PyStr) (maxSize : Int) :
    ∀ (hs : Headers) (acc : List PyStr) (accSize : Nat),
      (∃ sel : Headers, sel.Sublist hs ∧
        (ghcAux render maxSize hs acc accSize).1 =
          acc ++ sel.filterMap (fun p => render p.2.1)) ∧
      ((accSize : Int) ≤ maxSize →
        ((ghcAux render maxSize hs acc accSize).2 : Int) ≤ maxSize) := by
  intro hs
  induction hs with
  | nil =>
    intro acc accSize
    exact ⟨⟨[], List.Sublist.refl _, by simp [ghcAux]⟩, fun h => h⟩
  | cons q rest ih =>
    intro acc accSize
    obtain ⟨l, b, cached⟩ := q
    cases hr : render b with
    | none =>
      have hunf : ghcAux render maxSize ((l, b, cached) :: rest) acc accSize =
          ghcAux render maxSize rest acc accSize := by
        simp [ghcAux, hr]
      rw [hunf]
      obtain ⟨⟨sel, hsub, hcontent⟩, hsize⟩ := ih acc accSize
      exact ⟨⟨sel, hsub.cons _, hcontent⟩, hsize⟩
    | some t =>
      by_cases hfit : ((accSize : Int) + hdrTokens cached t + 2) ≤ maxSize
      · have hunf : ghcAux render maxSize ((l, b, cached) :: rest) acc accSize =
            ghcAux render maxSize rest (acc ++ [t])
              (accSize + hdrTokens cached t + 2) := by
          simp only [ghcAux, hr]
          rw [if_pos hfit]
        rw [hunf]
        obtain ⟨⟨sel, hsub, hcontent⟩, hsize⟩ :=
          ih (acc ++ [t]) (accSize + hdrTokens cached t + 2)
        refine ⟨⟨(l, b, cached) :: sel, hsub.cons₂ _, ?_⟩, ?_⟩
        · rw [hcontent]
          simp [hr]
        · intro _
          apply hsize
          push_cast
          omega
      · have hunf : ghcAux render maxSize ((l, b, cached) :: rest) acc accSize =
            (acc, accSize) := by
          simp only [ghcAux, hr]
          rw [if_neg hfit]
        rw [hunf]
        exact ⟨⟨[], List.nil_sublist _, by simp⟩, fun h => h⟩

/-- Once the walk breaks at an entry that does not fit, entries after the
break point are irrelevant: processing any extension of the list yields the
same result. -/
theorem ghcAux_stops_append (render : Block → Option PyStr) (maxSize : Int) :
    ∀ (hs hs2 : Headers) (acc : List PyStr) (accSize : Nat),
      ghcStops render maxSize hs accSize = true →
      ghcAux render maxSize (hs ++ hs2) acc accSize =
        ghcAux render maxSize hs acc accSize := by
  intro hs
  induction hs with
  | nil =>
    intro hs2 acc accSize hstop
    simp [ghcStops] at hstop
  | cons q rest ih =>
    intro hs2 acc accSize hstop
    obtain ⟨l, b, cached⟩ := q
    cases hr : render b with
    | none =>
      simp only [ghcStops, hr] at hstop
      simp only [List.cons_append, ghcAux, hr]
      exact ih hs2 acc accSize hstop
    | some t =>
      simp only [ghcStops, hr] at hstop
      by_cases hfit : ((accSize : Int) + hdrTokens cached t + 2) ≤ maxSize
      · rw [if_pos hfit] at hstop
        simp only [List.cons_append, ghcAux, hr]
        rw [if_pos hfit, if_pos hfit]
        exact ih hs2 _ _ hstop
      · simp only [List.cons_append, ghcAux, hr]
        rw [if_neg hfit, if_neg hfit]

/-- C6: for every budget `max_size ≥ 0` and every (level-sorted)
header-context state, `get_header_content` reports a total header size of at
most `max_size`, returns the renders of a sub-selection of the entries in
strictly increasing level order, and stops at the first successfully
rendered entry that does not fit — entries beyond the break point can never
contribute. -/
theorem getHeaderContent_spec (render : Block → Option PyStr) (h : Headers)
    (maxSize : Int) (hms : 0 ≤ maxSize)
    (hsorted : (h.map (fun p => p.1)).Pairwise (· < ·)) :
    ((getHeaderContent render maxSize h).2 : Int) ≤ maxSize ∧
    (∃ sel : Headers, sel.Sublist h ∧
      (sel.map (fun p => p.1)).Pairwise (· < ·) ∧
      (getHeaderContent render maxSize h).1 =
        sel.filterMap (fun p => render p.2.1)) ∧
    (∀ h2, ghcStops render maxSize h 0 = true →
      getHeaderContent render maxSize (h ++ h2) =
        getHeaderContent render maxSize h) := by
  obtain ⟨⟨sel, hsub, hcontent⟩, hsize⟩ := ghcAux_spec render maxSize h [] 0
  refine ⟨?_, ⟨sel, hsub, ?_, ?_⟩, ?_⟩
  · exact hsize (by exact_mod_cast hms)
  · exact hsorted.sublist (hsub.map (fun p => p.1))
  · simpa using hcontent
  · intro h2 hstop
    exact ghcAux_stops_append render maxSize h h2 [] 0 hstop

/-- C6 witness: with a two-entry context (sizes 5 and 100) and budget 10,
the conclusions hold at this concrete instance. -/
theorem getHeaderContent_spec_witness :
    ((getHeaderContent
        (fun b => match b with | Block.heading _ t => some t | _ => none) 10
        [(1, Block.heading 1 ['a'], 5), (2, Block.heading 2 ['b'], 100)]).2
      : Int) ≤ 10 ∧
    (∃ sel : Headers,
      sel.Sublist [(1, Block.heading 1 ['a'], 5), (2, Block.heading 2 ['b'], 100)] ∧
      (sel.map (fun p => p.1)).Pairwise (· < ·) ∧
      (getHeaderContent
        (fun b => match b with | Block.heading _ t => some t | _ => none) 10
        [(1, Block.heading 1 ['a'], 5), (2, Block.heading 2 ['b'], 100)]).1 =
        sel.filterMap (fun p =>
          (fun b => match b with | Block.heading _ t => some t | _ => none)
            p.2.1)) ∧
    (∀ h2, ghcStops
        (fun b => match b with | Block.heading _ t => some t | _ => none) 10
        [(1, Block.heading 1 ['a'], 5), (2, Block.heading 2 ['b'], 100)] 0 =
          true →
      getHeaderContent
        (fun b => match b with | Block.heading _ t => some t | _ => none) 10
        ([(1, Block.heading 1 ['a'], 5), (2, Block.heading 2 ['b'], 100)] ++ h2)
        = getHeaderContent
            (fun b => match b with | Block.heading _ t => some t | _ => none)
            10 [(1, Block.heading 1 ['a'], 5), (2, Block.heading 2 ['b'], 100)]) :=
  getHeaderContent_spec
    (fun b => match b with | Block.heading _ t => some t | _ => none)
    [(1, Block.heading 1 ['a'], 5), (2, Block.heading 2 ['b'], 100)]
    10 (by omega) (by simp)

/-- The shrink loop keeps the window positive and stops either within budget
or at a single-character window. -/
theorem shrinkWindow_spec (cnt : PyStr → Nat) (r : PyStr) (maxSize : Nat) :
    ∀ e, 1 ≤ e →
      1 ≤ shrinkWindow cnt r maxSize e ∧
      (cnt (r.take (shrinkWindow cnt r maxSize e)) ≤ maxSize ∨
        shrinkWindow cnt r maxSize e = 1) := by
  intro e
  induction e using Nat.strong_induction_on with
  | _ e ih =>
    intro he
    rw [shrinkWindow]
    split
    · rename_i h
      have h2 : e > 1 := h.2
      have hm : 1 ≤ Nat.max 1 (e / 10) := Nat.le_max_left _ _
      have hm2 : Nat.max 1 (e / 10) ≤ e - 1 :=
        Nat.max_le.mpr ⟨by omega, by omega⟩
      exact ih _ (by omega) (by omega)
    · rename_i h
      refine ⟨he, ?_⟩
      by_cases hc : cnt (r.take e) ≤ maxSize
      · exact Or.inl hc
      · have hB : ¬ e > 1 := fun hb => h ⟨not_le.mp hc, hb⟩
        omega

/-- The grow loop preserves being within budget. -/
theorem growWindow_le (cnt : PyStr → Nat) (r : PyStr) (maxSize : Nat) :
    ∀ e, cnt (r.take e) ≤ maxSize →
      cnt (r.take (growWindow cnt r maxSize e)) ≤ maxSize := by
  have H : ∀ n e, r.length - e ≤ n → cnt (r.take e) ≤ maxSize →
      cnt (r.take (growWindow cnt r maxSize e)) ≤ maxSize := by
    intro n
    induction n with
    | zero =>
      intro e hle hc
      rw [growWindow]
      split
      · rename_i h
        exact absurd h.2 (by omega)
      · exact hc
    | succ n ihn =>
      intro e hle hc
      rw [growWindow]
      split
      · rename_i h
        split
        · rename_i h2
          apply ihn _ _ h2
          have hm : 1 ≤ Nat.max 1 (e / 20) := Nat.le_max_left _ _
          have hmin : e + 1 ≤ Nat.min (e + Nat.max 1 (e / 20)) r.length :=
            Nat.le_min.mpr ⟨by omega, by omega⟩
          omega
        · exact hc
      · exact hc
  exact fun e hc => H (r.length - e) e le_rfl hc

/-- The grow loop never shrinks the window. -/
theorem growWindow_ge (cnt : PyStr → Nat) (r : PyStr) (maxSize : Nat) :
    ∀ e, e ≤ growWindow cnt r maxSize e := by
  have H : ∀ n e, r.length - e ≤ n → e ≤ growWindow cnt r maxSize e := by
    intro n
    induction n with
    | zero =>
      intro e hle
      rw [growWindow]
      split
      · rename_i h
        exact absurd h.2 (by omega)
      · exact le_rfl
    | succ n ihn =>
      intro e hle
      rw [growWindow]
      split
      · rename_i h
        split
        · rename_i h2
          have hm : 1 ≤ Nat.max 1 (e / 20) := Nat.le_max_left _ _
          have hmin : e + 1 ≤ Nat.min (e + Nat.max 1 (e / 20)) r.length :=
            Nat.le_min.mpr ⟨by omega, by omega⟩
          have := ihn (Nat.min (e + Nat.max 1 (e / 20)) r.length) (by omega)
          omega
        · exact le_rfl
      · exact le_rfl
  exact fun e => H (r.length - e) e le_rfl

/-- An over-budget window is not grown. -/
theorem growWindow_of_gt (cnt : PyStr → Nat) (r : PyStr) (maxSize : Nat)
    (e : Nat) (h : maxSize < cnt (r.take e)) :
    growWindow cnt r maxSize e = e := by
  rw [growWindow]
  split
  · rename_i hcond
    exact absurd hcond.1 (by omega)
  · rfl

/-- The adaptive window is positive, and either within budget or exactly one
character. -/
theorem windowSize_spec (cnt : PyStr → Nat) (r : PyStr) (maxSize : Nat)
    (hr : r ≠ []) (hmax : 1 ≤ maxSize) :
    1 ≤ windowSize cnt r maxSize ∧
    (cnt (r.take (windowSize cnt r maxSize)) ≤ maxSize ∨
      windowSize cnt r maxSize = 1) := by
  have key : ∀ e1, 1 ≤ e1 → (cnt (r.take e1) ≤ maxSize ∨ e1 = 1) →
      1 ≤ (if growWindow cnt r maxSize e1 = 0 then 1
            else growWindow cnt r maxSize e1) ∧
      (cnt (r.take (if growWindow cnt r maxSize e1 = 0 then 1
          else growWindow cnt r maxSize e1)) ≤ maxSize ∨
        (if growWindow cnt r maxSize e1 = 0 then 1
          else growWindow cnt r maxSize e1) = 1) := by
    intro e1 h1 hcase
    have hge := growWindow_ge cnt r maxSize e1
    rcases hcase with hle | hone
    · have h2 := growWindow_le cnt r maxSize e1 hle
      rw [if_neg (by omega)]
      exact ⟨by omega, Or.inl h2⟩
    · subst hone
      by_cases hc : cnt (r.take 1) ≤ maxSize
      · have h2 := growWindow_le cnt r maxSize 1 hc
        rw [if_neg (by omega)]
        exact ⟨by omega, Or.inl h2⟩
      · have heq := growWindow_of_gt cnt r maxSize 1 (not_le.mp hc)
        rw [heq]
        simp
  have he0 : 1 ≤ Nat.min (maxSize * 3) r.length :=
    Nat.le_min.mpr ⟨by omega, List.length_pos.mpr hr⟩
  obtain ⟨h1, hcase⟩ :=
    shrinkWindow_spec cnt r maxSize (Nat.min (maxSize * 3) r.length) he0
  simp only [windowSize]
  exact key _ h1 hcase

/-- `_split_by_chars_with_tokens`: every emitted chunk is non-empty and
either within budget or a single character; the chunks concatenate back to
the input and there are at most `length` of them. -/
theorem splitByChars_spec (cnt : PyStr → Nat) (maxSize : Nat)
    (hmax : 1 ≤ maxSize) :
    ∀ r, (∀ c ∈ splitByChars cnt r maxSize,
        (cnt c ≤ maxSize ∨ c.length = 1) ∧ c ≠ []) ∧
      (splitByChars cnt r maxSize).flatten = r ∧
      (splitByChars cnt r maxSize).length ≤ r.length := by
  have H : ∀ n r, List.length r ≤ n →
      (∀ c ∈ splitByChars cnt r maxSize,
        (cnt c ≤ maxSize ∨ c.length = 1) ∧ c ≠ []) ∧
      (splitByChars cnt r maxSize).flatten = r ∧
      (splitByChars cnt r maxSize).length ≤ r.length := by
    intro n
    induction n with
    | zero =>
      intro r hlen
      have hr : r = [] := List.length_eq_zero.mp (by omega)
      subst hr
      rw [splitByChars]
      simp
    | succ n ihn =>
      intro r hlen
      by_cases hr : r = []
      · subst hr
        rw [splitByChars]
        simp
      · rw [splitByChars, dif_neg hr]
        have hrpos : 0 < r.length := List.length_pos.mpr hr
        obtain ⟨hwpos, hwcase⟩ := windowSize_spec cnt r maxSize hr hmax
        have hdrop : (r.drop (windowSize cnt r maxSize)).length ≤ n := by
          rw [List.length_drop]
          omega
        obtain ⟨ihmem, ihflat, ihlen⟩ := ihn _ hdrop
        refine ⟨?_, ?_, ?_⟩
        · intro c hc
          rcases List.mem_cons.mp hc with rfl | hc2
          · refine ⟨?_, ?_⟩
            · rcases hwcase with hle | hone
              · exact Or.inl hle
              · right
                rw [hone, List.length_take]
                omega
            · intro hemp
              have h0 := congrArg List.length hemp
              rw [List.length_take] at h0
              simp only [List.length_nil, Nat.min_eq_zero_iff] at h0
              rcases h0 with h0 | h0 <;> omega
          · exact ihmem c hc2
        · rw [List.flatten_cons, ihflat, List.take_append_drop]
        · rw [List.length_cons]
          have hdl : (List.drop (windowSize cnt r maxSize) r).length =
              r.length - windowSize cnt r maxSize := List.length_drop _ _
          omega
  exact fun r => H r.length r le_rfl

/-- C9: for every non-empty text and budget `≥ 1`, the character-level
force-split terminates with at most `len(text)` chunks — every outer
iteration consumes at least one character — all chunks are non-empty and
they concatenate back to the input text. -/
theorem splitByChars_terminates (cnt : PyStr → Nat) (text : PyStr)
    (maxSize : Nat) (htext : text ≠ []) (hmax : 1 ≤ maxSize) :
    (splitByChars cnt text maxSize).length ≤ text.length ∧
    (splitByChars cnt text maxSize).flatten = text ∧
    ∀ c ∈ splitByChars cnt text maxSize, c ≠ [] := by
  obtain ⟨hmem, hflat, hlen⟩ := splitByChars_spec cnt maxSize hmax text
  exact ⟨hlen, hflat, fun c hc => (hmem c hc).2⟩

/-- C9 witness: at `text = "abc"`, `maxSize = 1` and the character-count
tokenizer, the bound, the partition property and chunk non-emptiness hold. -/
theorem splitByChars_terminates_witness :
    (splitByChars List.length ['a', 'b', 'c'] 1).length ≤
      (['a', 'b', 'c'] : PyStr).length ∧
    (splitByChars List.length ['a', 'b', 'c'] 1).flatten = ['a', 'b', 'c'] ∧
    ∀ c ∈ splitByChars List.length ['a', 'b', 'c'] 1, c ≠ [] :=
  splitByChars_terminates List.length ['a', 'b', 'c'] 1 (by simp) le_rfl

/-- One word step of `_split_by_tokens` preserves the invariant: every
emitted chunk is within budget or a single character, and the current chunk
is empty or within budget. -/
theorem sbtStep_inv (cnt : PyStr → Nat) (maxSize : Nat) (hmax : 1 ≤ maxSize)
    (chunks : List PyStr) (cur w : PyStr)
    (h1 : ∀ c ∈ chunks, cnt c ≤ maxSize ∨ c.length = 1)
    (h2 : cur = [] ∨ cnt cur ≤ maxSize) :
    (∀ c ∈ (sbtStep cnt maxSize (chunks, cur) w).1,
        cnt c ≤ maxSize ∨ c.length = 1) ∧
    ((sbtStep cnt maxSize (chunks, cur) w).2 = [] ∨
      cnt (sbtStep cnt maxSize (chunks, cur) w).2 ≤ maxSize) := by
  have hchunks1 : ∀ c ∈ (if cur ≠ [] then chunks ++ [cur] else chunks),
      cnt c ≤ maxSize ∨ c.length = 1 := by
    split
    · rename_i hcur
      intro c hc
      rcases List.mem_append.mp hc with hc | hc
      · exact h1 c hc
      · rw [List.mem_singleton] at hc
        subst hc
        rcases h2 with h0 | h0
        · exact absurd h0 hcur
        · exact Or.inl h0
    · exact h1
  simp only [sbtStep]
  by_cases hA : cnt (cur ++ (if cur ≠ [] then [' '] else []) ++ w) ≤ maxSize
  · rw [if_pos hA]
    exact ⟨h1, Or.inr hA⟩
  · rw [if_neg hA]
    by_cases hB : cnt w > maxSize
    · rw [if_pos hB]
      refine ⟨?_, Or.inl rfl⟩
      intro c hc
      rcases List.mem_append.mp hc with hc | hc
      · exact hchunks1 c hc
      · exact ((splitByChars_spec cnt maxSize hmax w).1 c hc).1
    · rw [if_neg hB]
      exact ⟨hchunks1, Or.inr (Nat.le_of_not_lt hB)⟩

/-- `_split_by_tokens` only emits chunks that are within budget or a single
character (an over-budget single character can only come from the
character-level splitter). -/
theorem splitByTokens_sound (cnt : PyStr → Nat) (maxSize : Nat)
    (hmax : 1 ≤ maxSize) (text : PyStr) :
    ∀ c ∈ splitByTokens cnt text maxSize,
      cnt c ≤ maxSize ∨ c.length = 1 := by
  have hfold : ∀ (ws : List PyStr) (chunks : List PyStr) (cur : PyStr),
      (∀ c ∈ chunks, cnt c ≤ maxSize ∨ c.length = 1) →
      (cur = [] ∨ cnt cur ≤ maxSize) →
      (∀ c ∈ (ws.foldl (sbtStep cnt maxSize) (chunks, cur)).1,
          cnt c ≤ maxSize ∨ c.length = 1) ∧
      ((ws.foldl (sbtStep cnt maxSize) (chunks, cur)).2 = [] ∨
        cnt (ws.foldl (sbtStep cnt maxSize) (chunks, cur)).2 ≤ maxSize) := by
    intro ws
    induction ws with
    | nil => exact fun chunks cur h1 h2 => ⟨h1, h2⟩
    | cons w ws ih =>
      intro chunks cur h1 h2
      rw [List.foldl_cons]
      obtain ⟨hs1, hs2⟩ := sbtStep_inv cnt maxSize hmax chunks cur w h1 h2
      have := ih (sbtStep cnt maxSize (chunks, cur) w).1
        (sbtStep cnt maxSize (chunks, cur) w).2 hs1 hs2
      simpa using this
  intro c hc
  by_cases hw : pyWords text = []
  · simp [splitByTokens, hw] at hc
  · simp only [splitByTokens, if_neg hw] at hc
    obtain ⟨hfc, hfcur⟩ :=
      hfold (pyWords text) [] [] (by simp) (Or.inl rfl)
    split at hc
    · rename_i hne
      rcases List.mem_append.mp hc with hc2 | hc2
      · exact hfc c hc2
      · rw [List.mem_singleton] at hc2
        subst hc2
        rcases hfcur with h0 | h0
        · exact absurd h0 hne
        · exact Or.inl h0
    · exact hfc c hc

/-- One sentence step of `_force_split_large_text` preserves the invariant,
assuming the token count does not grow under stripping. -/
theorem fsltStep_inv (cnt : PyStr → Nat) (maxSize : Nat) (withSep : PyStr)
    (hmax : 1 ≤ maxSize) (hmono : ∀ s, cnt (pyStrip s) ≤ cnt s)
    (chunks : List PyStr) (cur s : PyStr)
    (h1 : ∀ c ∈ chunks, cnt c ≤ maxSize ∨ c.length = 1)
    (h2 : cur = [] ∨ cnt cur ≤ maxSize) :
    (∀ c ∈ (fsltStep cnt maxSize withSep (chunks, cur) s).1,
        cnt c ≤ maxSize ∨ c.length = 1) ∧
    ((fsltStep cnt maxSize withSep (chunks, cur) s).2 = [] ∨
      cnt (fsltStep cnt maxSize withSep (chunks, cur) s).2 ≤ maxSize) := by
  have hchunks1 : ∀ c ∈ (if cur ≠ [] then chunks ++ [pyStrip cur] else chunks),
      cnt c ≤ maxSize ∨ c.length = 1 := by
    split
    · rename_i hcur
      intro c hc
      rcases List.mem_append.mp hc with hc | hc
      · exact h1 c hc
      · rw [List.mem_singleton] at hc
        subst hc
        rcases h2 with h0 | h0
        · exact absurd h0 hcur
        · exact Or.inl (le_trans (hmono cur) h0)
    · exact h1
  simp only [fsltStep]
  by_cases hskip : pyStrip s = []
  · rw [if_pos hskip]
    exact ⟨h1, h2⟩
  · rw [if_neg hskip]
    by_cases hA : cnt (pyStrip s ++ withSep) > maxSize
    · rw [if_pos hA]
      refine ⟨?_, Or.inl rfl⟩
      intro c hc
      rcases List.mem_append.mp hc with hc | hc
      · exact hchunks1 c hc
      · exact splitByTokens_sound cnt maxSize hmax s c hc
    · rw [if_neg hA]
      by_cases hcur : cur ≠ []
      · rw [if_pos hcur]
        by_cases hB : cnt (cur ++ (pyStrip s ++ withSep)) > maxSize
        · rw [if_pos hB]
          refine ⟨?_, Or.inr (Nat.le_of_not_lt hA)⟩
          intro c hc
          rcases List.mem_append.mp hc with hc | hc
          · exact h1 c hc
          · rw [List.mem_singleton] at hc
            subst hc
            rcases h2 with h0 | h0
            · exact absurd h0 hcur
            · exact Or.inl (le_trans (hmono cur) h0)
        · rw [if_neg hB]
          exact ⟨h1, Or.inr (Nat.le_of_not_lt hB)⟩
      · rw [if_neg hcur]
        exact ⟨h1, Or.inr (Nat.le_of_not_lt hA)⟩

/-- `_force_split_large_text` only emits chunks that are within budget or a
single character, assuming the token count does not grow under stripping. -/
theorem forceSplitLargeText_sound (cnt : PyStr → Nat) (maxSize : Nat)
    (hmax : 1 ≤ maxSize) (hmono : ∀ s, cnt (pyStrip s) ≤ cnt s)
    (text : PyStr) :
    ∀ c ∈ forceSplitLargeText cnt text maxSize,
      cnt c ≤ maxSize ∨ c.length = 1 := by
  have hfold : ∀ (ws : PyStr) (ss : List PyStr) (chunks : List PyStr)
      (cur : PyStr),
      (∀ c ∈ chunks, cnt c ≤ maxSize ∨ c.length = 1) →
      (cur = [] ∨ cnt cur ≤ maxSize) →
      (∀ c ∈ (ss.foldl (fsltStep cnt maxSize ws) (chunks, cur)).1,
          cnt c ≤ maxSize ∨ c.length = 1) ∧
      ((ss.foldl (fsltStep cnt maxSize ws) (chunks, cur)).2 = [] ∨
        cnt (ss.foldl (fsltStep cnt maxSize ws) (chunks, cur)).2 ≤ maxSize) := by
    intro ws ss
    induction ss with
    | nil => exact fun chunks cur h1 h2 => ⟨h1, h2⟩
    | cons s ss ih =>
      intro chunks cur h1 h2
      rw [List.foldl_cons]
      obtain ⟨hs1, hs2⟩ := fsltStep_inv cnt maxSize ws hmax hmono
        chunks cur s h1 h2
      have := ih (fsltStep cnt maxSize ws (chunks, cur) s).1
        (fsltStep cnt maxSize ws (chunks, cur) s).2 hs1 hs2
      simpa using this
  have main : ∀ (ws : PyStr) (ss : List PyStr) (c : PyStr),
      c ∈ (if pyStrip (ss.foldl (fsltStep cnt maxSize ws) ([], [])).2 ≠ []
        then (ss.foldl (fsltStep cnt maxSize ws) ([], [])).1 ++
          [pyStrip (ss.foldl (fsltStep cnt maxSize ws) ([], [])).2]
        else (ss.foldl (fsltStep cnt maxSize ws) ([], [])).1) →
      cnt c ≤ maxSize ∨ c.length = 1 := by
    intro ws ss c hc
    obtain ⟨hfc, hfcur⟩ := hfold ws ss [] [] (by simp) (Or.inl rfl)
    split at hc
    · rename_i hne
      rcases List.mem_append.mp hc with hc2 | hc2
      · exact hfc c hc2
      · rw [List.mem_singleton] at hc2
        subst hc2
        rcases hfcur with h0 | h0
        · rw [h0] at hne
          exact absurd rfl hne
        · exact Or.inl (le_trans (hmono _) h0)
    · exact hfc c hc
  intro c hc
  exact main _ _ c hc

/-- C1 (amended): for every budget `B ≥ 1` and token-count function that
does not grow under stripping, every chunk in the final validation pass's
output either has token cost at most `B` or is a single character — the
character-level force-split cannot reduce below one character, so a single
character whose token cost exceeds `B` is emitted as an over-budget chunk. -/
theorem validateChunks_sound (cnt : PyStr → Nat) (chunks : List PyStr)
    (B : Nat) (hmono : ∀ s, cnt (pyStrip s) ≤ cnt s) (hB : 1 ≤ B) :
    ∀ c ∈ validateChunks cnt chunks B, cnt c ≤ B ∨ c.length = 1 := by
  intro c hc
  unfold validateChunks at hc
  rw [List.mem_flatten] at hc
  obtain ⟨l, hl, hcl⟩ := hc
  rw [List.mem_map] at hl
  obtain ⟨c0, _, rfl⟩ := hl
  by_cases h0 : cnt c0 > B
  · rw [if_pos h0] at hcl
    exact forceSplitLargeText_sound cnt B hB hmono c0 c hcl
  · rw [if_neg h0] at hcl
    rw [List.mem_singleton] at hcl
    subst hcl
    exact Or.inl (Nat.le_of_not_lt h0)

/-- C1 witness: at the constant-1 token count (for which validation leaves
the chunk list unchanged), budget 1 and the chunk list `["ab"]`, the amended
bound holds. -/
theorem validateChunks_sound_witness :
    (∀ s : PyStr, (fun _ : PyStr => (1 : Nat)) (pyStrip s) ≤
      (fun _ : PyStr => (1 : Nat)) s) ∧ (1 : Nat) ≤ 1 ∧
    ∀ c ∈ validateChunks (fun _ => 1) [['a', 'b']] 1,
      (fun _ : PyStr => (1 : Nat)) c ≤ 1 ∨ c.length = 1 :=
  ⟨fun _ => le_rfl, le_rfl,
    validateChunks_sound (fun _ => 1) [['a', 'b']] 1 (fun _ => le_rfl) le_rfl⟩

/-- C1 counterexample: with a tokenizer that reports 100 tokens for every
string (so every single character costs 100) and budget `B = 1`, the final
validation pass splits the over-budget chunk `"ab"` down to single
characters `"a"`, `"b"` — but each of those still costs 100 tokens, so the
returned list contains chunks whose token cost exceeds the budget: the
unconditional "every chunk has token cost at most B" guarantee is false. -/
theorem validateChunks_counterexample :
    validateChunks (fun _ => 100) [['a', 'b']] 1 = [['a'], ['b']] ∧
    ¬ (∀ c ∈ validateChunks (fun _ => 100) [['a', 'b']] 1,
        (fun _ : PyStr => (100 : Nat)) c ≤ 1) := by
  have h : validateChunks (fun _ => 100) [['a', 'b']] 1 = [['a'], ['b']] := by
    simp [validateChunks, forceSplitLargeText, fsltStep, splitByTokens,
      sbtStep, splitByChars, windowSize, shrinkWindow, growWindow, pyWords,
      wordGroups, pySplit, splitGo, pyStrip, pyContains, forceSepList, isWS]
  refine ⟨h, ?_⟩
  intro hall
  rw [h] at hall
  have h100 := hall ['a'] (by simp)
  norm_num at h100

/-- C2 (amended): the orchestrator's `_split_block` never raises — it
catches each strategy's exception and moves on — and returns the original
block as a singleton when every strategy that can handle the block raises.
The strategies themselves do not all honour the never-raises contract (see
the counterexample). -/
theorem splitBlockOrch_total (strats : List Strategy) (b : Block) :
    (∃ r, splitBlockOrch strats b = Except.ok r) ∧
    ((∀ s ∈ strats, s.canHandle b = true →
        ∃ e, s.splitBlock b = Except.error e) →
      splitBlockOrch strats b = Except.ok [b]) := by
  induction strats with
  | nil => exact ⟨⟨[b], rfl⟩, fun _ => rfl⟩
  | cons s rest ih =>
    constructor
    · by_cases hch : s.canHandle b
      · cases hsp : s.splitBlock b with
        | ok r => exact ⟨r, by simp [splitBlockOrch, hch, hsp]⟩
        | error e =>
          obtain ⟨r, hr⟩ := ih.1
          exact ⟨r, by simp [splitBlockOrch, hch, hsp, hr]⟩
      · obtain ⟨r, hr⟩ := ih.1
        exact ⟨r, by simp [splitBlockOrch, hch, hr]⟩
    · intro hall
      have hrest : splitBlockOrch rest b = Except.ok [b] :=
        ih.2 (fun s2 hs2 => hall s2 (List.mem_cons_of_mem _ hs2))
      by_cases hch : s.canHandle b
      · obtain ⟨e, he⟩ := hall s (List.mem_cons_self _ _) hch
        simp [splitBlockOrch, hch, he, hrest]
      · simp [splitBlockOrch, hch, hrest]

/-- C2 witness: with a single always-applicable strategy that always
raises, `_split_block` returns `[block]`. -/
theorem splitBlockOrch_total_witness :
    splitBlockOrch
      [⟨fun _ => true, fun _ => Except.error PyErr.renderError⟩]
      (Block.paragraph ['a']) = Except.ok [Block.paragraph ['a']] :=
  (splitBlockOrch_total
      [⟨fun _ => true, fun _ => Except.error PyErr.renderError⟩]
      (Block.paragraph ['a'])).2
    (fun s hs _ => by
      rw [List.mem_singleton] at hs
      subst hs
      exact ⟨PyErr.renderError, rfl⟩)

/-- C2 counterexample: the paragraph strategy's own `split_block` violates
the claimed contract in both ways: with a renderer that raises, the
exception propagates out of `split_block` (the initial render is outside
any `try`), and with a renderer returning the empty string it returns the
empty list rather than a non-empty one. -/
theorem paragraphSplitBlock_counterexample :
    (paragraphSplitBlockE charCount mkDocSimple
        (fun _ => Except.error PyErr.renderError) 10
        (Block.paragraph ['a'])).isOk = false ∧
    paragraphSplitBlockE charCount mkDocSimple (fun _ => Except.ok []) 10
        (Block.paragraph ['a']) = Except.ok [] := by
  constructor
  · rfl
  · simp [paragraphSplitBlockE, paragraphSplitCore, detectSpecialContentType,
      splitNormalParagraph, splitTextIntoSentences, sentenceGroups, sepChars,
      pySplit, splitGo, pyContains, pyStrip, isWS, paramKeywords]

/-- C8 (amended): for a normal paragraph whose first sentence alone exceeds
the budget in tokens and `1.5 ×` the budget in characters,
`_create_sentence_pair` returns the empty list, and `_split_normal_paragraph`
then falls back to the strategy's *own* line/character-based forced
splitting (`_force_split_by_lines`) — the strategy decomposes the text
itself instead of signalling no progress to the orchestrator. -/
theorem splitNormalParagraph_escalates (cnt : PyStr → Nat)
    (mkDoc : PyStr → Option Block) (render : Block → Except PyErr PyStr)
    (chunkSize : Nat) (text : PyStr) (orig : Block)
    (hsent : splitTextIntoSentences text ≠ [])
    (htok : chunkSize < cnt ((splitTextIntoSentences text).headD []))
    (hlen : 3 * chunkSize < 2 * ((splitTextIntoSentences text).headD []).length) :
    createSentencePair chunkSize (splitTextIntoSentences text)
      (findSentenceSplitPoint cnt chunkSize (splitTextIntoSentences text))
      text = [] ∧
    splitNormalParagraph cnt mkDoc render chunkSize text orig =
      forceSplitByLines cnt mkDoc render chunkSize text orig := by
  obtain ⟨s0, rest, hs⟩ : ∃ s0 rest,
      splitTextIntoSentences text = s0 :: rest := by
    cases h : splitTextIntoSentences text with
    | nil => exact absurd h hsent
    | cons a l => exact ⟨a, l, rfl⟩
  rw [hs] at htok hlen
  simp only [List.headD_cons] at htok hlen
  have hidx : findSentenceSplitPoint cnt chunkSize (s0 :: rest) = 0 := by
    simp only [findSentenceSplitPoint, List.map_cons, fsspGo]
    rw [if_pos (by omega)]
  have hpair : createSentencePair chunkSize (s0 :: rest) 0 text = [] := by
    simp [createSentencePair, gt_iff_lt, hlen]
  have hfull : createSentencePair chunkSize (splitTextIntoSentences text)
      (findSentenceSplitPoint cnt chunkSize (splitTextIntoSentences text))
      text = [] := by
    rw [hs, hidx, hpair]
  refine ⟨hfull, ?_⟩
  unfold splitNormalParagraph
  rw [if_neg (by rw [hs]; exact List.cons_ne_nil s0 rest), if_pos hfull]

/-- C8 witness: a 21-character single-sentence paragraph with budget 10 (so
the sentence costs 21 > 10 tokens and 21 > 1.5 × 10 characters) triggers
the empty pair and the fallback to the strategy's own forced splitting. -/
theorem splitNormalParagraph_escalates_witness :
    createSentencePair 10
      (splitTextIntoSentences
        ['a', 'a', 'a', 'a', 'a', 'a', 'a', 'a', 'a', 'a', 'a', 'a', 'a',
          'a', 'a', 'a', 'a', 'a', 'a', 'a', 'a'])
      (findSentenceSplitPoint charCount 10
        (splitTextIntoSentences
          ['a', 'a', 'a', 'a', 'a', 'a', 'a', 'a', 'a', 'a', 'a', 'a', 'a',
            'a', 'a', 'a', 'a', 'a', 'a', 'a', 'a']))
      ['a', 'a', 'a', 'a', 'a', 'a', 'a', 'a', 'a', 'a', 'a', 'a', 'a',
        'a', 'a', 'a', 'a', 'a', 'a', 'a', 'a'] = [] ∧
    splitNormalParagraph charCount mkDocSimple renderSimple 10
      ['a', 'a', 'a', 'a', 'a', 'a', 'a', 'a', 'a', 'a', 'a', 'a', 'a',
        'a', 'a', 'a', 'a', 'a', 'a', 'a', 'a'] Block.other =
    forceSplitByLines charCount mkDocSimple renderSimple 10
      ['a', 'a', 'a', 'a', 'a', 'a', 'a', 'a', 'a', 'a', 'a', 'a', 'a',
        'a', 'a', 'a', 'a', 'a', 'a', 'a', 'a'] Block.other :=
  splitNormalParagraph_escalates charCount mkDocSimple renderSimple 10
    ['a', 'a', 'a', 'a', 'a', 'a', 'a', 'a', 'a', 'a', 'a', 'a', 'a', 'a',
      'a', 'a', 'a', 'a', 'a', 'a', 'a'] Block.other
    (by decide) (by decide) (by decide)


/-- C8 counterexample: on a 21-character single-sentence paragraph with
budget 10 (so the first sentence exceeds the budget in tokens and `1.5 ×`
the budget in characters), the paragraph strategy does *not* return a
result the orchestrator treats as a single unsplit block — it decomposes
the sentence itself (line split, then the `max(20, chunk_size)`-character
slices of `_process_oversized_chunks`) and returns two paragraph blocks,
which the orchestrator re-enqueues instead of escalating to the text-level
force-split. -/
theorem paragraphSplitCore_counterexample :
    3 * 10 < 2 * List.length
      (['a', 'a', 'a', 'a', 'a', 'a', 'a', 'a', 'a', 'a', 'a', 'a', 'a',
        'a', 'a', 'a', 'a', 'a', 'a', 'a', 'a'] : PyStr) ∧
    10 < charCount
      ['a', 'a', 'a', 'a', 'a', 'a', 'a', 'a', 'a', 'a', 'a', 'a', 'a',
        'a', 'a', 'a', 'a', 'a', 'a', 'a', 'a'] ∧
    paragraphSplitCore charCount mkDocSimple renderSimple 10
      ['a', 'a', 'a', 'a', 'a', 'a', 'a', 'a', 'a', 'a', 'a', 'a', 'a',
        'a', 'a', 'a', 'a', 'a', 'a', 'a', 'a'] Block.other =
      [Block.paragraph
        ['a', 'a', 'a', 'a', 'a', 'a', 'a', 'a', 'a', 'a', 'a', 'a', 'a',
          'a', 'a', 'a', 'a', 'a', 'a', 'a'],
       Block.paragraph ['a']] ∧
    (paragraphSplitCore charCount mkDocSimple renderSimple 10
      ['a', 'a', 'a', 'a', 'a', 'a', 'a', 'a', 'a', 'a', 'a', 'a', 'a',
        'a', 'a', 'a', 'a', 'a', 'a', 'a', 'a'] Block.other).length = 2 := by
  have h1 : pySplit ['\n']
      ['a', 'a', 'a', 'a', 'a', 'a', 'a', 'a', 'a', 'a', 'a', 'a', 'a',
        'a', 'a', 'a', 'a', 'a', 'a', 'a', 'a'] =
      [['a', 'a', 'a', 'a', 'a', 'a', 'a', 'a', 'a', 'a', 'a', 'a', 'a',
        'a', 'a', 'a', 'a', 'a', 'a', 'a', 'a']] := by
    simp [pySplit, splitGo]
  have h2 : chunksEvery 50
      ['a', 'a', 'a', 'a', 'a', 'a', 'a', 'a', 'a', 'a', 'a', 'a', 'a',
        'a', 'a', 'a', 'a', 'a', 'a', 'a', 'a'] =
      [['a', 'a', 'a', 'a', 'a', 'a', 'a', 'a', 'a', 'a', 'a', 'a', 'a',
        'a', 'a', 'a', 'a', 'a', 'a', 'a', 'a']] := by
    simp [chunksEvery]
  have h3 : chunksEvery 20
      ['a', 'a', 'a', 'a', 'a', 'a', 'a', 'a', 'a', 'a', 'a', 'a', 'a',
        'a', 'a', 'a', 'a', 'a', 'a', 'a', 'a'] =
      [['a', 'a', 'a', 'a', 'a', 'a', 'a', 'a', 'a', 'a', 'a', 'a', 'a',
        'a', 'a', 'a', 'a', 'a', 'a', 'a'], ['a']] := by
    simp [chunksEvery]
  have h6 : forceSplitByLines charCount mkDocSimple renderSimple 10
      ['a', 'a', 'a', 'a', 'a', 'a', 'a', 'a', 'a', 'a', 'a', 'a', 'a',
        'a', 'a', 'a', 'a', 'a', 'a', 'a', 'a'] Block.other =
      [Block.paragraph
        ['a', 'a', 'a', 'a', 'a', 'a', 'a', 'a', 'a', 'a', 'a', 'a', 'a',
          'a', 'a', 'a', 'a', 'a', 'a', 'a'],
       Block.paragraph ['a']] := by
    rw [forceSplitByLines, h1]
    simp [fsblStep, charCount, mkDocSimple, List.intercalate, pyStrip, isWS,
      processOversizedChunks, pocStep, renderSimple, h2, h3]
  have hdet : detectSpecialContentType
      ['a', 'a', 'a', 'a', 'a', 'a', 'a', 'a', 'a', 'a', 'a', 'a', 'a',
        'a', 'a', 'a', 'a', 'a', 'a', 'a', 'a']
      [['a', 'a', 'a', 'a', 'a', 'a', 'a', 'a', 'a', 'a', 'a', 'a', 'a',
        'a', 'a', 'a', 'a', 'a', 'a', 'a', 'a']] = ContentType.normal := by
    simp [detectSpecialContentType, pyContains, pySplit, splitGo,
      paramKeywords]
  have hsent : splitTextIntoSentences
      ['a', 'a', 'a', 'a', 'a', 'a', 'a', 'a', 'a', 'a', 'a', 'a', 'a',
        'a', 'a', 'a', 'a', 'a', 'a', 'a', 'a'] =
      [['a', 'a', 'a', 'a', 'a', 'a', 'a', 'a', 'a', 'a', 'a', 'a', 'a',
        'a', 'a', 'a', 'a', 'a', 'a', 'a', 'a']] := by
    simp [splitTextIntoSentences, sentenceGroups, sepChars]
  have hcore : paragraphSplitCore charCount mkDocSimple renderSimple 10
      ['a', 'a', 'a', 'a', 'a', 'a', 'a', 'a', 'a', 'a', 'a', 'a', 'a',
        'a', 'a', 'a', 'a', 'a', 'a', 'a', 'a'] Block.other =
      [Block.paragraph
        ['a', 'a', 'a', 'a', 'a', 'a', 'a', 'a', 'a', 'a', 'a', 'a', 'a',
          'a', 'a', 'a', 'a', 'a', 'a', 'a'],
       Block.paragraph ['a']] := by
    rw [paragraphSplitCore, h1, hdet]
    rw [splitNormalParagraph, hsent]
    rw [if_neg (by simp)]
    rw [if_pos]
    · exact h6
    · simp [findSentenceSplitPoint, fsspGo, charCount, createSentencePair]
  exact ⟨by decide, by decide, hcore, by rw [hcore]; rfl⟩

/-- C7 (amended): for every table with at least one data row that trips the
conversion test (max row cost `≥ 0.5 ×` budget, total cost `> 2 ×` budget,
or more than 50 rows, computed after the optional header replacement),
`split_block` converts the (possibly header-demoted) rows to paragraph
blocks and, provided at least one row's cleaned render is non-empty and
parses (and the parser never yields tables), the result contains no table
block.  Rows whose cleaned render is empty are dropped, and when *every*
row cleans to nothing the original table itself is returned — so the
unconditional "never left as a table" reading fails (see counterexample). -/
theorem tableSplitBlock_convert_spec (cnt : PyStr → Nat)
    (renderRow : List PyStr → PyStr) (mkDoc : PyStr → Option Block)
    (chunkSize : Nat) (t : PyTable) (hrows : t.rows ≠ [])
    (hconv : tableShouldConvert cnt chunkSize t = true)
    (hmk : ∀ s b, mkDoc s = some b → b.isTable = false)
    (hsome : ∃ row ∈ (tableAfterReplace cnt t).rows,
      cleanRowText (renderRow row) ≠ [] ∧
      (mkDoc (cleanRowText (renderRow row))).isSome = true) :
    tableSplitBlock cnt renderRow mkDoc chunkSize t =
      convertTableToParagraphs renderRow mkDoc (tableAfterReplace cnt t) ∧
    ∀ b ∈ tableSplitBlock cnt renderRow mkDoc chunkSize t,
      b.isTable = false := by
  have hmap : t.rows.map (countTokenTableRow cnt) ≠ [] := by
    simpa using hrows
  have heq : tableSplitBlock cnt renderRow mkDoc chunkSize t =
      convertTableToParagraphs renderRow mkDoc (tableAfterReplace cnt t) := by
    unfold tableSplitBlock
    rw [if_neg hmap, if_pos hconv]
  refine ⟨heq, ?_⟩
  rw [heq]
  obtain ⟨row, hrow, hne, hsome2⟩ := hsome
  obtain ⟨b0, hb0⟩ := Option.isSome_iff_exists.mp hsome2
  have hflat : ((tableAfterReplace cnt t).rows.map (fun row =>
      if cleanRowText (renderRow row) ≠ [] then
        match mkDoc (cleanRowText (renderRow row)) with
        | some b => [b]
        | none => []
      else [])).flatten ≠ [] := by
    have hmem : b0 ∈ ((tableAfterReplace cnt t).rows.map (fun row =>
        if cleanRowText (renderRow row) ≠ [] then
          match mkDoc (cleanRowText (renderRow row)) with
          | some b => [b]
          | none => []
        else [])).flatten := by
      rw [List.mem_flatten]
      refine ⟨[b0], ?_, List.mem_singleton_self b0⟩
      rw [List.mem_map]
      exact ⟨row, hrow, by rw [if_pos hne, hb0]⟩
    exact List.ne_nil_of_mem hmem
  intro b hb
  unfold convertTableToParagraphs at hb
  rw [if_neg (by simpa using hflat)] at hb
  rw [List.mem_flatten] at hb
  obtain ⟨l, hl, hbl⟩ := hb
  rw [List.mem_map] at hl
  obtain ⟨row2, _, rfl⟩ := hl
  by_cases hc : cleanRowText (renderRow row2) ≠ []
  · rw [if_pos hc] at hbl
    cases hmk0 : mkDoc (cleanRowText (renderRow row2)) with
    | some b1 =>
      rw [hmk0] at hbl
      rw [List.mem_singleton] at hbl
      subst hbl
      exact hmk _ _ hmk0
    | none =>
      rw [hmk0] at hbl
      exact absurd hbl (List.not_mem_nil b)
  · rw [if_neg hc] at hbl
    exact absurd hbl (List.not_mem_nil b)

/-- C7 witness: a table of 51 one-cell rows `"x"` under header `"H"` with
budget 10 trips the conversion test (total cost and row count), every row
cleans to `"x"` and parses to a paragraph, and the result contains no table
block. -/
theorem tableSplitBlock_convert_spec_witness :
    tableSplitBlock charCount renderRowSimple mkDocSimple 10
        ⟨[['H']], List.replicate 51 [['x']]⟩ =
      convertTableToParagraphs renderRowSimple mkDocSimple
        (tableAfterReplace charCount ⟨[['H']], List.replicate 51 [['x']]⟩) ∧
    ∀ b ∈ tableSplitBlock charCount renderRowSimple mkDocSimple 10
        ⟨[['H']], List.replicate 51 [['x']]⟩, b.isTable = false :=
  tableSplitBlock_convert_spec charCount renderRowSimple mkDocSimple 10
    ⟨[['H']], List.replicate 51 [['x']]⟩ (by decide) (by decide)
    (by
      intro s b h
      simp only [mkDocSimple] at h
      split at h
      · exact absurd h (by simp)
      · rw [Option.some.injEq] at h
        subst h
        rfl)
    (by decide)

/-- C7 counterexample: a table of 51 rows, each a single *empty* cell,
trips the conversion test (row count 51 > 50, and total cost 156 > 2 × 10),
but every row renders as `"|  |"` and cleans to the empty string, so
`_convert_table_to_paragraphs` produces nothing and falls back to returning
the original table — an oversized table block *is* left in the result,
contradicting the "never left as an oversized table" claim. -/
theorem tableSplitBlock_counterexample :
    tableShouldConvert charCount 10 ⟨[[]], List.replicate 51 [[]]⟩ = true ∧
    tableSplitBlock charCount renderRowSimple mkDocSimple 10
        ⟨[[]], List.replicate 51 [[]]⟩ =
      [Block.table ⟨[[]], List.replicate 51 [[]]⟩] ∧
    Block.isTable (Block.table ⟨[[]], List.replicate 51 [[]]⟩) = true := by
  refine ⟨by decide, ?_, rfl⟩
  decide
